import Mathlib

/-!
# Shallow embedding of `pr-commits` (src/src/main.rs)

The program fetches pull-request titles and commit lists from the GitHub
API and prints one fixed-width table per PR.  This file embeds its data
model, JSON decoding, request construction, table rendering and the main
loop as executable Lean definitions, and proves the specification claims
about them.
-/

set_option maxRecDepth 4000

namespace PrCommits

/-! ## Data model (the `serde` structs of main.rs, lines 26-47) -/

/-- Rust `struct UserInfo { name: String, date: String }` -/
structure UserInfo where
  name : String
  date : String
deriving Repr

/-- Rust `struct CommitInfo { author: UserInfo, message: String }` -/
structure CommitInfo where
  author : UserInfo
  message : String
deriving Repr

/-- Rust `struct Commit { sha: String, commit: CommitInfo }` -/
structure Commit where
  sha : String
  commit : CommitInfo
deriving Repr

/-- Rust `struct PullRequest { title: String }` -/
structure PullRequest where
  title : String
deriving Repr

/-! ## JSON values and the derived `serde` deserializers

JSON documents are modelled as a first-order tree.  The derived
`Deserialize` impls look up the named fields of an object (extra fields
are ignored, a missing field or a field of the wrong shape is an error)
and decode a `Vec<Commit>` from a JSON array element by element. -/

inductive Json where
  | null : Json
  | bool (b : Bool) : Json
  | num (n : Int) : Json
  | str (s : String) : Json
  | arr (elems : List Json) : Json
  | obj (fields : List (String × Json)) : Json

/-- Field lookup in a JSON object; `none` on non-objects or absent keys. -/
def Json.lookup (j : Json) (key : String) : Option Json :=
  match j with
  | .obj fields => List.lookup key fields
  | _ => none

/-- Decode a JSON string. -/
def Json.asStr : Json → Option String
  | .str s => some s
  | _ => none

/-- Decode a JSON array. -/
def Json.asArr : Json → Option (List Json)
  | .arr elems => some elems
  | _ => none

/-- Derived `Deserialize for PullRequest`: an object with a string field
`title`. -/
def parsePullRequest (j : Json) : Option PullRequest := do
  let t ← (j.lookup "title").bind Json.asStr
  pure ⟨t⟩

/-- Derived `Deserialize for UserInfo`: string fields `name` and `date`. -/
def parseUserInfo (j : Json) : Option UserInfo := do
  let n ← (j.lookup "name").bind Json.asStr
  let d ← (j.lookup "date").bind Json.asStr
  pure ⟨n, d⟩

/-- Derived `Deserialize for CommitInfo`: an `author` object and a string
field `message`. -/
def parseCommitInfo (j : Json) : Option CommitInfo := do
  let aj ← j.lookup "author"
  let a ← parseUserInfo aj
  let m ← (j.lookup "message").bind Json.asStr
  pure ⟨a, m⟩

/-- Derived `Deserialize for Commit`: a string field `sha` and a `commit`
object. -/
def parseCommit (j : Json) : Option Commit := do
  let s ← (j.lookup "sha").bind Json.asStr
  let cj ← j.lookup "commit"
  let ci ← parseCommitInfo cj
  pure ⟨s, ci⟩

/-- Derived `Deserialize` for `Vec<Commit>`: a JSON array, each element decoded in
order; the first failing element fails the whole decode. -/
def parseCommits (j : Json) : Option (List Commit) :=
  j.asArr.bind (List.mapM parseCommit)

/-! ## HTTP model

A request is characterised by what the program puts into it: the URL and
the two headers (main.rs lines 60-65 and 90-95).  The network is an
oracle mapping the request to either a transport failure
(`reqwest::Error` out of `send()`) or a response carrying a status code
and a JSON body. -/

structure Request where
  url : String
  authorization : String
  userAgent : String
deriving Repr, DecidableEq

inductive NetResult where
  | failure : NetResult
  | response (status : Nat) (body : Json) : NetResult

inductive AppError where
  | invalidHeader : AppError
  | network : AppError
  | decode : AppError
deriving Repr, DecidableEq

/-- Rust `HeaderValue::from_str` accepts the string iff every character is a
tab or a visible character (code point ≥ 32, not DEL). -/
def validHeaderChar (c : Char) : Bool :=
  c = '\t' || (32 ≤ c.toNat && c.toNat ≠ 127)

/-- Model of `HeaderValue::from_str`: the value is the input string itself when
every character is legal, otherwise an error (propagated by `?`). -/
def headerValueFromStr (s : String) : Option String :=
  if s.data.all validHeaderChar then some s else none

/-- The URL `format!("https://api.github.com/repos/{}/{}/pulls/{}", owner, repo, pr)`. -/
def prTitleUrl (owner repo : String) (pr : Nat) : String :=
  "https://api.github.com/repos/" ++ owner ++ "/" ++ repo ++ "/pulls/" ++ toString pr

/-- The URL `format!("https://api.github.com/repos/{}/{}/pulls/{}/commits", owner, repo, pr)`. -/
def prCommitsUrl (owner repo : String) (pr : Nat) : String :=
  "https://api.github.com/repos/" ++ owner ++ "/" ++ repo ++ "/pulls/" ++ toString pr ++ "/commits"

/-- The request `fetch_pr_title` builds (main.rs lines 55-70):
`Authorization: token <token>` via `HeaderValue::from_str` and the static
`User-Agent: rust-client`. -/
def fetch_pr_title_request (owner repo : String) (pr : Nat) (token : String) :
    Option Request :=
  (headerValueFromStr ("token " ++ token)).map fun auth =>
    { url := prTitleUrl owner repo pr, authorization := auth, userAgent := "rust-client" }

/-- The request `fetch_commits_for_pr` builds (main.rs lines 84-100). -/
def fetch_commits_request (owner repo : String) (pr : Nat) (token : String) :
    Option Request :=
  (headerValueFromStr ("token " ++ token)).map fun auth =>
    { url := prCommitsUrl owner repo pr, authorization := auth, userAgent := "rust-client" }

/-- Model of `send().await?.json::<PullRequest>().await?` (main.rs lines 67-75):
a transport failure propagates; otherwise the body is deserialized
regardless of the HTTP status (the code never inspects it), and a shape
mismatch propagates. -/
def decode_pr_title : NetResult → Except AppError String
  | .failure => .error .network
  | .response _ body =>
    match parsePullRequest body with
    | some p => .ok p.title
    | none => .error .decode

/-- Model of `send().await?.json::<Vec<Commit>>().await?` (main.rs lines 98-106). -/
def decode_commits : NetResult → Except AppError (List Commit)
  | .failure => .error .network
  | .response _ body =>
    match parseCommits body with
    | some cs => .ok cs
    | none => .error .decode

/-- Model of `async fn fetch_pr_title` (main.rs lines 49-76): build the headers
(failing like `?` on an invalid header value), issue the single GET, and
decode the response. -/
def fetch_pr_title (net : Request → NetResult) (owner repo : String) (pr : Nat)
    (token : String) : Except AppError String :=
  match fetch_pr_title_request owner repo pr token with
  | none => .error .invalidHeader
  | some req => decode_pr_title (net req)

/-- Model of `async fn fetch_commits_for_pr` (main.rs lines 78-107). -/
def fetch_commits_for_pr (net : Request → NetResult) (owner repo : String) (pr : Nat)
    (token : String) : Except AppError (List Commit) :=
  match fetch_commits_request owner repo pr token with
  | none => .error .invalidHeader
  | some req => decode_commits (net req)

/-! ## `str::lines().next().unwrap_or("")` (main.rs line 123) -/

/-- The first chunk of `str::split_inclusive('\n')`: everything up to and
including the first newline, or the whole string when it has none. -/
def splitInclusiveFirst : List Char → List Char
  | [] => []
  | c :: rest => if c = '\n' then ['\n'] else c :: splitInclusiveFirst rest

/-- The map applied by `str::lines` to each chunk: strip one trailing
`"\r\n"`, else one trailing `"\n"`, else nothing (the chunk keeps at
most one `'\n'`, at its end, so suffix stripping is this recursion). -/
def stripLineEnding : List Char → List Char
  | [] => []
  | c :: rest =>
    if c = '\n' ∧ rest = [] then []
    else if c = '\r' ∧ rest = ['\n'] then []
    else c :: stripLineEnding rest

/-- Model of `s.lines().next()`: `none` on the empty string (the iterator is
empty), otherwise the first chunk with its line ending stripped. -/
def linesNext (s : String) : Option String :=
  match s.data with
  | [] => none
  | cs => some ⟨stripLineEnding (splitInclusiveFirst cs)⟩

/-- Model of `s.lines().next().unwrap_or("")`. -/
def firstLineOrEmpty (s : String) : String :=
  (linesNext s).getD ""

/-! ## Table rendering (`print_commit_table`, main.rs lines 109-127) -/

/-- Rust's `{:fill<w}` format: left-align, pad on the right with `fill`
up to a minimum width of `w` characters; longer values are untouched. -/
def fmtLeftWith (fill : Char) (w : Nat) (s : String) : String :=
  s ++ String.mk (List.replicate (w - s.length) fill)

/-- Rust `{:<w}` formatting: left-align padded with spaces. -/
def fmtLeft : Nat → String → String :=
  fmtLeftWith ' '

/-- The line `println!("PR #{} - {}", pr_number, pr_title)` writes (without the newline). -/
def titleLine (pr : Nat) (title : String) : String :=
  "PR #" ++ toString pr ++ " - " ++ title

/-- The column-header row (main.rs lines 111-114). -/
def headerLine : String :=
  fmtLeft 40 "Commit SHA" ++ " | " ++ fmtLeft 25 "Date" ++ " | " ++
    fmtLeft 20 "Author" ++ " | " ++ "Message"

/-- The line `println!("{:-<40}-+-{:-<25}-+-{:-<60}", "", "", "")` writes (main.rs line 115). -/
def sepLine : String :=
  fmtLeftWith '-' 40 "" ++ "-+-" ++ fmtLeftWith '-' 25 "" ++ "-+-" ++ fmtLeftWith '-' 60 ""

/-- One data row (main.rs lines 118-124). -/
def commitRow (c : Commit) : String :=
  fmtLeft 40 c.sha ++ " | " ++ fmtLeft 25 c.commit.author.date ++ " | " ++
    fmtLeft 20 c.commit.author.name ++ " | " ++ firstLineOrEmpty c.commit.message

/-- The output of the `for` loop: each row followed by its newline. -/
def commitRowsOut : List Commit → String
  | [] => ""
  | c :: cs => commitRow c ++ "\n" ++ commitRowsOut cs

/-- Model of `print_commit_table` as the exact string it writes to stdout: four
`println!`s (each appending `"\n"`), the row loop, and the final
`println!("\n")` which writes a newline character plus the terminating
newline. -/
def print_commit_table (pr : Nat) (title : String) (commits : List Commit) : String :=
  titleLine pr title ++ "\n" ++ headerLine ++ "\n" ++ sepLine ++ "\n" ++
    commitRowsOut commits ++ "\n" ++ "\n"

/-- Terminal lines of an output string: maximal `'\n'`-free segments, one
per written line, a final unterminated segment included, the empty
segment after a terminating final newline not counted (what a reader of
stdout sees as lines). -/
def breakLines : List Char → List (List Char)
  | [] => []
  | c :: cs =>
    if c = '\n' then [] :: breakLines cs
    else
      match breakLines cs with
      | [] => [[c]]
      | l :: ls => (c :: l) :: ls

/-! ## `main` (main.rs lines 129-145) -/

/-- The 25 `White_Space` code points trimmed by Rust's `str::trim`. -/
def rustIsWhitespace (c : Char) : Bool :=
  let n := c.toNat
  (n = 0x09) || (n = 0x0A) || (n = 0x0B) || (n = 0x0C) || (n = 0x0D) ||
  (n = 0x20) || (n = 0x85) || (n = 0xA0) || (n = 0x1680) ||
  (0x2000 ≤ n && n ≤ 0x200A) || (n = 0x2028) || (n = 0x2029) ||
  (n = 0x202F) || (n = 0x205F) || (n = 0x3000)

/-- Rust `str::trim`: drop leading and trailing whitespace. -/
def rustTrim (s : String) : String :=
  ⟨((s.data.dropWhile rustIsWhitespace).reverse.dropWhile rustIsWhitespace).reverse⟩

/-- Model of `std::fs::read_to_string(&args.token_path)?.trim().to_string()`
(main.rs lines 134-136): the token used for every request is the trimmed
contents of the credential file. -/
def main_token (fileContents : String) : String :=
  rustTrim fileContents

/-- Observable steps of the main loop, in order: each fetch that is
issued and each table that is printed. -/
inductive Event where
  | fetchTitle (pr : Nat) : Event
  | fetchCommits (pr : Nat) : Event
  | printTable (pr : Nat) (out : String) : Event
deriving Repr, DecidableEq

/-- The PR number an event concerns. -/
def Event.prNum : Event → Nat
  | .fetchTitle pr => pr
  | .fetchCommits pr => pr
  | .printTable pr _ => pr

/-- The `for` loop of `main` (main.rs lines 138-142): for each PR number
in order, fetch the title, fetch the commits, print the table; the first
`?`-propagated error ends the loop (and the process exits non-zero, the
`Bool` component being `false`).  The event trace records exactly which
fetches were issued and which tables were printed. -/
def runMain (net : Request → NetResult) (owner repo token : String) :
    List Nat → List Event × Bool
  | [] => ([], true)
  | pr :: rest =>
    match fetch_pr_title net owner repo pr token with
    | .error _ => ([.fetchTitle pr], false)
    | .ok title =>
      match fetch_commits_for_pr net owner repo pr token with
      | .error _ => ([.fetchTitle pr, .fetchCommits pr], false)
      | .ok commits =>
        let tail := runMain net owner repo token rest
        (.fetchTitle pr :: .fetchCommits pr ::
          .printTable pr (print_commit_table pr title commits) :: tail.1, tail.2)

/-! ## Specification comparator and concrete demonstration values -/

/-- The message field as the specification words it (claim C4): the text
of the original message before its first line break (a `"\n"` or a
`"\r\n"`), the whole message when it contains no line break. -/
def specFirstLine : List Char → List Char
  | [] => []
  | c :: rest =>
    if c = '\n' then []
    else if c = '\r' ∧ rest.head? = some '\n' then []
    else c :: specFirstLine rest

/-- A concrete network oracle: PR 1 of `o/r` answers both fetches
successfully (title `"T1"`, no commits); every other request fails at
the transport level. -/
def demoNet : Request → NetResult := fun req =>
  if req.url = prTitleUrl "o" "r" 1 then .response 200 (.obj [("title", .str "T1")])
  else if req.url = prCommitsUrl "o" "r" 1 then .response 200 (.arr [])
  else .failure

/-- The commit of the specification's worked example, as the API returns
it. -/
def demoCommitJson : Json :=
  .obj [("sha", .str "abc123"),
        ("commit", .obj [
          ("author", .obj [("name", .str "Alice"), ("date", .str "2024-01-01")]),
          ("message", .str "Fix null pointer\n\nDetails...")])]

/-- The decoded form of `demoCommitJson`. -/
def demoCommit : Commit :=
  ⟨"abc123", ⟨⟨"Alice", "2024-01-01"⟩, "Fix null pointer\n\nDetails..."⟩⟩

/-! ## Helper lemmas -/

theorem headerValueFromStr_eq {s t : String} (h : headerValueFromStr s = some t) :
    t = s := by
  unfold headerValueFromStr at h
  split at h
  · exact (Option.some.inj h).symm
  · exact absurd h (by simp)

theorem fetch_pr_title_request_eq {owner repo : String} {pr : Nat} {token : String}
    {req : Request} (h : fetch_pr_title_request owner repo pr token = some req) :
    req = { url := prTitleUrl owner repo pr, authorization := "token " ++ token,
            userAgent := "rust-client" } := by
  unfold fetch_pr_title_request at h
  cases hv : headerValueFromStr ("token " ++ token) with
  | none => rw [hv] at h; exact absurd h (by simp)
  | some auth =>
    rw [hv] at h
    simp only [Option.map_some'] at h
    have := headerValueFromStr_eq hv
    subst this
    exact (Option.some.inj h).symm

theorem fetch_commits_request_eq {owner repo : String} {pr : Nat} {token : String}
    {req : Request} (h : fetch_commits_request owner repo pr token = some req) :
    req = { url := prCommitsUrl owner repo pr, authorization := "token " ++ token,
            userAgent := "rust-client" } := by
  unfold fetch_commits_request at h
  cases hv : headerValueFromStr ("token " ++ token) with
  | none => rw [hv] at h; exact absurd h (by simp)
  | some auth =>
    rw [hv] at h
    simp only [Option.map_some'] at h
    have := headerValueFromStr_eq hv
    subst this
    exact (Option.some.inj h).symm

theorem stripLineEnding_cons (c : Char) (x : List Char)
    (h1 : ¬(c = '\n' ∧ x = [])) (h2 : ¬(c = '\r' ∧ x = ['\n'])) :
    stripLineEnding (c :: x) = c :: stripLineEnding x := by
  rw [stripLineEnding, if_neg h1, if_neg h2]

theorem splitInclusiveFirst_head :
    ∀ (d : Char) (t : List Char), d ≠ '\n' →
      splitInclusiveFirst (d :: t) = d :: splitInclusiveFirst t := by
  intro d t hd
  rw [splitInclusiveFirst, if_neg hd]

theorem splitInclusiveFirst_ne_nil (c : Char) (t : List Char) :
    splitInclusiveFirst (c :: t) ≠ [] := by
  rw [splitInclusiveFirst]
  split <;> simp

theorem strip_splitFirst_eq_spec : ∀ (cs : List Char),
    stripLineEnding (splitInclusiveFirst cs) = specFirstLine cs := by
  intro cs
  induction cs with
  | nil => rfl
  | cons c t ih =>
    by_cases hc : c = '\n'
    · subst hc
      rw [splitInclusiveFirst, if_pos rfl, specFirstLine, if_pos rfl]
      rfl
    · rw [splitInclusiveFirst_head c t hc]
      by_cases hr : c = '\r' ∧ t.head? = some '\n'
      · obtain ⟨hcr, hth⟩ := hr
        subst hcr
        cases t with
        | nil => exact absurd hth (by simp)
        | cons d t' =>
          have hd : d = '\n' := by simpa using hth
          subst hd
          rw [splitInclusiveFirst, if_pos rfl]
          rw [specFirstLine, if_neg hc, if_pos ⟨rfl, by simp⟩]
          rfl
      · have hx1 : ¬(c = '\n' ∧ splitInclusiveFirst t = []) := fun h => hc h.1
        have hx2 : ¬(c = '\r' ∧ splitInclusiveFirst t = ['\n']) := by
          rintro ⟨hcr, hsp⟩
          refine hr ⟨hcr, ?_⟩
          cases t with
          | nil => exact absurd hsp (by simp [splitInclusiveFirst])
          | cons d t' =>
            by_cases hd : d = '\n'
            · simp [hd]
            · rw [splitInclusiveFirst_head d t' hd] at hsp
              exact absurd (List.head_eq_of_cons_eq hsp) hd
        rw [stripLineEnding_cons c _ hx1 hx2, ih]
        rw [specFirstLine, if_neg hc, if_neg hr]

theorem firstLineOrEmpty_eq_spec (s : String) :
    firstLineOrEmpty s = ⟨specFirstLine s.data⟩ := by
  unfold firstLineOrEmpty linesNext
  cases hs : s.data with
  | nil => rfl
  | cons c t =>
    simp only [Option.getD_some]
    rw [strip_splitFirst_eq_spec]

theorem no_newline_specFirstLine : ∀ (cs : List Char), '\n' ∉ specFirstLine cs := by
  intro cs
  induction cs with
  | nil => simp [specFirstLine]
  | cons c t ih =>
    rw [specFirstLine]
    split
    · simp
    · split
      · simp
      · intro hm
        rcases List.mem_cons.mp hm with h | h
        · rename_i hc _
          exact hc h.symm
        · exact ih h

theorem no_newline_firstLineOrEmpty (s : String) : '\n' ∉ (firstLineOrEmpty s).data := by
  rw [firstLineOrEmpty_eq_spec]
  exact no_newline_specFirstLine s.data

theorem fmtLeftWith_data (fill : Char) (w : Nat) (s : String) :
    (fmtLeftWith fill w s).data = s.data ++ List.replicate (w - s.length) fill := by
  rw [fmtLeftWith, String.data_append]

theorem no_newline_fmtLeft (w : Nat) (s : String) (h : '\n' ∉ s.data) :
    '\n' ∉ (fmtLeft w s).data := by
  rw [fmtLeft, fmtLeftWith_data]
  intro hm
  rcases List.mem_append.mp hm with h1 | h1
  · exact h h1
  · exact absurd (List.eq_of_mem_replicate h1) (by decide)

theorem no_newline_commitRow (c : Commit) (h1 : '\n' ∉ c.sha.data)
    (h2 : '\n' ∉ c.commit.author.date.data) (h3 : '\n' ∉ c.commit.author.name.data) :
    '\n' ∉ (commitRow c).data := by
  rw [commitRow]
  simp only [String.data_append, List.mem_append]
  rintro ((((((ha | hb) | hc') | hd) | he) | hf) | hg)
  · exact no_newline_fmtLeft 40 c.sha h1 ha
  · exact absurd hb (by decide)
  · exact no_newline_fmtLeft 25 c.commit.author.date h2 hc'
  · exact absurd hd (by decide)
  · exact no_newline_fmtLeft 20 c.commit.author.name h3 he
  · exact absurd hf (by decide)
  · exact no_newline_firstLineOrEmpty c.commit.message hg

theorem digitChar_ne_newline (n : Nat) : Nat.digitChar n ≠ '\n' := by
  by_cases h : n < 16
  · have hall : ∀ m, m < 16 → Nat.digitChar m ≠ '\n' := by decide
    exact hall n h
  · have hh : ∀ m, m < 16 → ¬ n = m := fun m hm heq => h (heq ▸ hm)
    have hstar : Nat.digitChar n = '*' := by
      unfold Nat.digitChar
      rw [if_neg (hh 0 (by decide)), if_neg (hh 1 (by decide)), if_neg (hh 2 (by decide)),
        if_neg (hh 3 (by decide)), if_neg (hh 4 (by decide)), if_neg (hh 5 (by decide)),
        if_neg (hh 6 (by decide)), if_neg (hh 7 (by decide)), if_neg (hh 8 (by decide)),
        if_neg (hh 9 (by decide)), if_neg (hh 10 (by decide)), if_neg (hh 11 (by decide)),
        if_neg (hh 12 (by decide)), if_neg (hh 13 (by decide)), if_neg (hh 14 (by decide)),
        if_neg (hh 15 (by decide))]
    rw [hstar]
    decide

theorem toDigitsCore_ne_newline (b : Nat) : ∀ (fuel n : Nat) (acc : List Char),
    (∀ c ∈ acc, c ≠ '\n') → ∀ c ∈ Nat.toDigitsCore b fuel n acc, c ≠ '\n' := by
  intro fuel
  induction fuel with
  | zero => intro n acc hacc c hc; exact hacc c hc
  | succ fuel ih =>
    intro n acc hacc c hc
    simp only [Nat.toDigitsCore] at hc
    have hext : ∀ x ∈ Nat.digitChar (n % b) :: acc, x ≠ '\n' := by
      intro x hx
      rcases List.mem_cons.mp hx with h | h
      · exact h ▸ digitChar_ne_newline (n % b)
      · exact hacc x h
    split at hc
    · exact hext c hc
    · exact ih (n / b) (Nat.digitChar (n % b) :: acc) hext c hc

theorem toString_nat_no_newline (n : Nat) : '\n' ∉ (toString n).data := by
  intro hmem
  have hd : (toString n).data = Nat.toDigitsCore 10 (n + 1) n [] := rfl
  rw [hd] at hmem
  exact toDigitsCore_ne_newline 10 (n + 1) n [] (by intro c hc; cases hc) '\n' hmem rfl

theorem titleLine_no_newline (pr : Nat) (title : String) (h : '\n' ∉ title.data) :
    '\n' ∉ (titleLine pr title).data := by
  rw [titleLine]
  simp only [String.data_append, List.mem_append]
  rintro (((h1 | h2) | h3) | h4)
  · exact absurd h1 (by decide)
  · exact toString_nat_no_newline pr h2
  · exact absurd h3 (by decide)
  · exact h h4

theorem headerLine_no_newline : '\n' ∉ headerLine.data := by decide

theorem sepLine_no_newline : '\n' ∉ sepLine.data := by decide

/-! ## Terminal-line decomposition of the rendered table -/

theorem breakLines_append (l : List Char) (rest : List Char) (h : '\n' ∉ l) :
    breakLines (l ++ '\n' :: rest) = l :: breakLines rest := by
  induction l with
  | nil => simp [breakLines]
  | cons c t ih =>
    have hc : c ≠ '\n' := fun hh => h (by simp [hh])
    have ht : '\n' ∉ t := fun hh => h (by simp [hh])
    rw [List.cons_append, breakLines]
    rw [if_neg hc, ih ht]

theorem print_data_eq (pr : Nat) (title : String) (commits : List Commit) :
    (print_commit_table pr title commits).data =
      (titleLine pr title).data ++ '\n' :: (headerLine.data ++ '\n' :: (sepLine.data ++ '\n' ::
        ((commitRowsOut commits).data ++ '\n' :: '\n' :: []))) := by
  have hnl : ("\n" : String).data = ['\n'] := rfl
  simp only [print_commit_table, String.data_append, List.append_assoc, hnl,
    List.singleton_append, List.cons_append, List.nil_append]

theorem breakLines_print (pr : Nat) (title : String) (commits : List Commit)
    (ht : '\n' ∉ title.data) :
    breakLines (print_commit_table pr title commits).data =
      (titleLine pr title).data :: headerLine.data :: sepLine.data ::
        breakLines ((commitRowsOut commits).data ++ '\n' :: '\n' :: []) := by
  rw [print_data_eq]
  rw [breakLines_append _ _ (titleLine_no_newline pr title ht)]
  rw [breakLines_append _ _ headerLine_no_newline]
  rw [breakLines_append _ _ sepLine_no_newline]

theorem breakLines_rows (commits : List Commit)
    (hc : ∀ c ∈ commits, '\n' ∉ c.sha.data ∧ '\n' ∉ c.commit.author.date.data ∧
          '\n' ∉ c.commit.author.name.data) :
    breakLines ((commitRowsOut commits).data ++ '\n' :: '\n' :: []) =
      commits.map (fun c => (commitRow c).data) ++ [[], []] := by
  induction commits with
  | nil => rfl
  | cons c cs ih =>
    obtain ⟨h1, h2, h3⟩ := hc c (List.mem_cons_self c cs)
    have hnl : ("\n" : String).data = ['\n'] := rfl
    rw [commitRowsOut]
    simp only [String.data_append, List.append_assoc, hnl, List.singleton_append,
      List.cons_append, List.nil_append]
    rw [breakLines_append _ _ (no_newline_commitRow c h1 h2 h3)]
    rw [ih (fun x hx => hc x (List.mem_cons_of_mem c hx))]
    rfl

/-! ## C1: failure semantics of the two fetches -/

/-- C1 (corrected): the claim states that a non-2xx HTTP status surfaces
as an error, but neither fetch ever inspects the status code: a 404
response whose body happens to deserialize returns a value. -/
theorem C1_counterexample :
    fetch_pr_title (fun _ => .response 404 (.obj [("title", .str "x")])) "o" "r" 7 "tok"
      = .ok "x" ∧ ¬ (200 ≤ 404 ∧ 404 < 300) :=
  ⟨rfl, by decide⟩

/-- C1 (amended): a network/transport error or a JSON shape mismatch in
the response surfaces as a fatal error from either fetch; each fetch
issues at most one request (its result depends only on the one response
to the request it builds), so there is no retry.  The HTTP status code
itself is never checked: a non-2xx response is fatal only through its
body failing to deserialize. -/
theorem C1_fetch_error_conditions :
    (∀ (net : Request → NetResult) (owner repo : String) (pr : Nat) (token : String)
        (req : Request),
      fetch_pr_title_request owner repo pr token = some req → net req = .failure →
      fetch_pr_title net owner repo pr token = .error .network) ∧
    (∀ (net : Request → NetResult) (owner repo : String) (pr : Nat) (token : String)
        (req : Request) (st : Nat) (body : Json),
      fetch_pr_title_request owner repo pr token = some req → net req = .response st body →
      parsePullRequest body = none →
      fetch_pr_title net owner repo pr token = .error .decode) ∧
    (∀ (net : Request → NetResult) (owner repo : String) (pr : Nat) (token : String)
        (req : Request),
      fetch_commits_request owner repo pr token = some req → net req = .failure →
      fetch_commits_for_pr net owner repo pr token = .error .network) ∧
    (∀ (net : Request → NetResult) (owner repo : String) (pr : Nat) (token : String)
        (req : Request) (st : Nat) (body : Json),
      fetch_commits_request owner repo pr token = some req → net req = .response st body →
      parseCommits body = none →
      fetch_commits_for_pr net owner repo pr token = .error .decode) ∧
    (∀ (net net' : Request → NetResult) (owner repo : String) (pr : Nat) (token : String),
      (∀ req, fetch_pr_title_request owner repo pr token = some req → net req = net' req) →
      fetch_pr_title net owner repo pr token = fetch_pr_title net' owner repo pr token) ∧
    (∀ (net net' : Request → NetResult) (owner repo : String) (pr : Nat) (token : String),
      (∀ req, fetch_commits_request owner repo pr token = some req → net req = net' req) →
      fetch_commits_for_pr net owner repo pr token
        = fetch_commits_for_pr net' owner repo pr token) := by
  refine ⟨?_, ?_, ?_, ?_, ?_, ?_⟩
  · intro net owner repo pr token req hreq hnet
    simp only [fetch_pr_title, hreq, hnet, decode_pr_title]
  · intro net owner repo pr token req st body hreq hnet hparse
    simp only [fetch_pr_title, hreq, hnet, decode_pr_title, hparse]
  · intro net owner repo pr token req hreq hnet
    simp only [fetch_commits_for_pr, hreq, hnet, decode_commits]
  · intro net owner repo pr token req st body hreq hnet hparse
    simp only [fetch_commits_for_pr, hreq, hnet, decode_commits, hparse]
  · intro net net' owner repo pr token hagree
    cases hreq : fetch_pr_title_request owner repo pr token with
    | none => simp only [fetch_pr_title, hreq]
    | some req => simp only [fetch_pr_title, hreq, hagree req hreq]
  · intro net net' owner repo pr token hagree
    cases hreq : fetch_commits_request owner repo pr token with
    | none => simp only [fetch_commits_for_pr, hreq]
    | some req => simp only [fetch_commits_for_pr, hreq, hagree req hreq]

theorem C1_witness :
    fetch_pr_title (fun _ => .failure) "o" "r" 1 "tok" = .error .network ∧
    fetch_pr_title (fun _ => .response 500 .null) "o" "r" 1 "tok" = .error .decode ∧
    fetch_commits_for_pr (fun _ => .failure) "o" "r" 1 "tok" = .error .network ∧
    fetch_commits_for_pr (fun _ => .response 500 .null) "o" "r" 1 "tok" = .error .decode ∧
    fetch_pr_title (fun _ => .failure) "o" "r" 1 "tok"
      = fetch_pr_title (fun _ => .failure) "o" "r" 1 "tok" ∧
    fetch_commits_for_pr (fun _ => .failure) "o" "r" 1 "tok"
      = fetch_commits_for_pr (fun _ => .failure) "o" "r" 1 "tok" :=
  ⟨C1_fetch_error_conditions.1 _ "o" "r" 1 "tok" _ rfl rfl,
   C1_fetch_error_conditions.2.1 _ "o" "r" 1 "tok" _ 500 .null rfl rfl rfl,
   C1_fetch_error_conditions.2.2.1 _ "o" "r" 1 "tok" _ rfl rfl,
   C1_fetch_error_conditions.2.2.2.1 _ "o" "r" 1 "tok" _ 500 .null rfl rfl rfl,
   C1_fetch_error_conditions.2.2.2.2.1 _ _ "o" "r" 1 "tok" (fun _ _ => rfl),
   C1_fetch_error_conditions.2.2.2.2.2 _ _ "o" "r" 1 "tok" (fun _ _ => rfl)⟩

/-! ## C7: request headers -/

/-- C7 (confirmed): every request either fetch builds carries
`Authorization: token <trimmed credential-file contents>` and the fixed
`User-Agent: rust-client`. -/
theorem C7_request_headers :
    ∀ (fileContents owner repo : String) (pr : Nat) (req : Request),
      (fetch_pr_title_request owner repo pr (main_token fileContents) = some req →
        req.authorization = "token " ++ rustTrim fileContents ∧
        req.userAgent = "rust-client") ∧
      (fetch_commits_request owner repo pr (main_token fileContents) = some req →
        req.authorization = "token " ++ rustTrim fileContents ∧
        req.userAgent = "rust-client") := by
  intro fileContents owner repo pr req
  constructor
  · intro h
    rw [fetch_pr_title_request_eq h]
    exact ⟨rfl, rfl⟩
  · intro h
    rw [fetch_commits_request_eq h]
    exact ⟨rfl, rfl⟩

theorem C7_witness :
    (Request.mk (prTitleUrl "o" "r" 1) "token tok" "rust-client").authorization
      = "token " ++ rustTrim " tok\n" ∧
    (Request.mk (prTitleUrl "o" "r" 1) "token tok" "rust-client").userAgent
      = "rust-client" :=
  (C7_request_headers " tok\n" "o" "r" 1 _).1 rfl

/-! ## C8: the renderer is total; an empty message renders as empty -/

/-- C8 (confirmed): the renderer is a total function; in particular a
commit whose message is the empty string (whose `lines()` iterator is
empty, so `next()` is `None`) renders with an empty message field via
`unwrap_or("")` rather than failing. -/
theorem C8_empty_message_renders_empty :
    ∀ (sha date name : String),
      commitRow ⟨sha, ⟨⟨name, date⟩, ""⟩⟩ =
        fmtLeft 40 sha ++ " | " ++ fmtLeft 25 date ++ " | " ++ fmtLeft 20 name ++ " | " := by
  intro sha date name
  show fmtLeft 40 sha ++ " | " ++ fmtLeft 25 date ++ " | " ++ fmtLeft 20 name ++ " | " ++
      firstLineOrEmpty "" = _
  have h : firstLineOrEmpty "" = "" := rfl
  rw [h]
  simp

/-! ## C10: field padding -/

/-- C10 (confirmed): in every data row the sha, date and author fields
are left-aligned, padded with spaces to minimum widths 40, 25 and 20,
and never truncated: the full field value is kept and the padded field
has length `max width value-length`, so an over-long value lengthens the
row and shifts the later columns. -/
theorem C10_field_padding :
    ∀ (c : Commit), ∃ p1 p2 p3 : String,
      commitRow c = (c.sha ++ p1) ++ " | " ++ (c.commit.author.date ++ p2) ++ " | " ++
        (c.commit.author.name ++ p3) ++ " | " ++ firstLineOrEmpty c.commit.message ∧
      p1.data = List.replicate (40 - c.sha.length) ' ' ∧
      p2.data = List.replicate (25 - c.commit.author.date.length) ' ' ∧
      p3.data = List.replicate (20 - c.commit.author.name.length) ' ' ∧
      (c.sha ++ p1).length = max 40 c.sha.length ∧
      (c.commit.author.date ++ p2).length = max 25 c.commit.author.date.length ∧
      (c.commit.author.name ++ p3).length = max 20 c.commit.author.name.length := by
  intro c
  refine ⟨String.mk (List.replicate (40 - c.sha.length) ' '),
          String.mk (List.replicate (25 - c.commit.author.date.length) ' '),
          String.mk (List.replicate (20 - c.commit.author.name.length) ' '),
          rfl, rfl, rfl, rfl, ?_, ?_, ?_⟩ <;>
    · simp only [String.length_append, String.length_mk, List.length_replicate, Nat.max_def]
      split <;> omega

/-! ## C4: the message field is the first line of the message -/

/-- C4 (confirmed): the message field of every rendered data row equals
exactly the text of the original commit message before its first line
break (a `"\n"` or `"\r\n"` sequence), and the whole message when it
contains no line break. -/
theorem C4_message_field_first_line :
    ∀ (c : Commit),
      commitRow c = fmtLeft 40 c.sha ++ " | " ++ fmtLeft 25 c.commit.author.date ++ " | " ++
        fmtLeft 20 c.commit.author.name ++ " | " ++ ⟨specFirstLine c.commit.message.data⟩ := by
  intro c
  rw [commitRow, firstLineOrEmpty_eq_spec]

/-! ## C2: line structure of one table -/

/-- C2 (corrected): refutes the claim as stated at PR 1, title `"t"`,
zero commits.  The renderer's lines are not "one header line, one
separator line, N data lines, one blank line and nothing else": a
PR-title line comes first and the table ends with two blank lines
(`println!("\n")` writes two newline characters). -/
theorem C2_counterexample :
    breakLines (print_commit_table 1 "t" []).data =
      [("PR #1 - t" : String).data, headerLine.data, sepLine.data, [], []] ∧
    breakLines (print_commit_table 1 "t" []).data ≠
      [headerLine.data, sepLine.data, []] := by
  have h5 : breakLines (print_commit_table 1 "t" []).data =
      [("PR #1 - t" : String).data, headerLine.data, sepLine.data, [], []] := by rfl
  refine ⟨h5, ?_⟩
  rw [h5]
  intro h
  exact absurd (congrArg List.length h) (by decide)

/-- C2 (amended): for every PR number, title and commit list (whose
displayed fields contain no newline character), the renderer emits
exactly one PR-title line, one column-header line, one separator line,
and N data lines, in that order, followed by exactly two blank lines and
nothing else. -/
theorem C2_table_line_structure (pr : Nat) (title : String) (commits : List Commit)
    (ht : '\n' ∉ title.data)
    (hc : ∀ c ∈ commits, '\n' ∉ c.sha.data ∧ '\n' ∉ c.commit.author.date.data ∧
          '\n' ∉ c.commit.author.name.data) :
    breakLines (print_commit_table pr title commits).data =
      (titleLine pr title).data :: headerLine.data :: sepLine.data ::
        (commits.map (fun c => (commitRow c).data) ++ [[], []]) := by
  rw [breakLines_print pr title commits ht, breakLines_rows commits hc]

theorem C2_witness :
    breakLines (print_commit_table 42 "Fix bug" [demoCommit]).data =
      (titleLine 42 "Fix bug").data :: headerLine.data :: sepLine.data ::
        ([demoCommit].map (fun c => (commitRow c).data) ++ [[], []]) :=
  C2_table_line_structure 42 "Fix bug" [demoCommit] (by decide) (by decide)

/-! ## C6: a PR with an empty commits list -/

/-- C6 (confirmed): a PR whose commits fetch returns the empty list
renders as the title, header and separator lines with zero data lines
(then the two blank table terminators), and the main-loop iteration for
it completes successfully rather than erroring. -/
theorem C6_empty_commit_list (net : Request → NetResult) (owner repo token : String)
    (pr : Nat) (title : String)
    (ht : fetch_pr_title net owner repo pr token = .ok title)
    (hcm : fetch_commits_for_pr net owner repo pr token = .ok [])
    (hnl : '\n' ∉ title.data) :
    (runMain net owner repo token [pr]).2 = true ∧
    (runMain net owner repo token [pr]).1 =
      [.fetchTitle pr, .fetchCommits pr, .printTable pr (print_commit_table pr title [])] ∧
    breakLines (print_commit_table pr title []).data =
      [(titleLine pr title).data, headerLine.data, sepLine.data, [], []] := by
  refine ⟨?_, ?_, ?_⟩
  · simp [runMain, ht, hcm]
  · simp [runMain, ht, hcm]
  · rw [breakLines_print pr title [] hnl]
    rfl

theorem C6_witness :
    (runMain demoNet "o" "r" "tok" [1]).2 = true ∧
    (runMain demoNet "o" "r" "tok" [1]).1 =
      [.fetchTitle 1, .fetchCommits 1, .printTable 1 (print_commit_table 1 "T1" [])] ∧
    breakLines (print_commit_table 1 "T1" []).data =
      [(titleLine 1 "T1").data, headerLine.data, sepLine.data, [], []] :=
  C6_empty_commit_list demoNet "o" "r" "tok" 1 "T1" rfl rfl (by decide)

/-! ## C9: the separator row -/

/-- C9 (confirmed): the separator the renderer emits is one fixed
constant string — three dash runs of widths 40, 25 and 60 joined by
`"-+-"` — independent of the PR number, title and commits (it is always
the third line of the table), and it is not the four-segment separator
that would match the four header columns. -/
theorem C9_separator_row :
    sepLine = ⟨List.replicate 40 '-'⟩ ++ "-+-" ++ ⟨List.replicate 25 '-'⟩ ++ "-+-" ++
      ⟨List.replicate 60 '-'⟩ ∧
    sepLine ≠ ⟨List.replicate 40 '-'⟩ ++ "-+-" ++ ⟨List.replicate 25 '-'⟩ ++ "-+-" ++
      ⟨List.replicate 20 '-'⟩ ++ "-+-" ++ ⟨List.replicate 60 '-'⟩ ∧
    ∀ (pr : Nat) (title : String) (commits : List Commit), '\n' ∉ title.data →
      (breakLines (print_commit_table pr title commits).data)[2]? = some sepLine.data := by
  refine ⟨by rfl, by decide, ?_⟩
  intro pr title commits ht
  rw [breakLines_print pr title commits ht]
  simp

theorem C9_witness :
    (breakLines (print_commit_table 1 "t" []).data)[2]? = some sepLine.data :=
  C9_separator_row.2.2 1 "t" [] (by decide)

/-! ## C5: API order is preserved -/

theorem Json.asArr_eq : ∀ {j : Json} {elems : List Json},
    j.asArr = some elems → j = .arr elems := by
  intro j elems h
  cases j with
  | arr l =>
    have h' : some l = some elems := h
    rw [Option.some.inj h']
  | null => exact absurd h (by simp [Json.asArr])
  | bool b => exact absurd h (by simp [Json.asArr])
  | num n => exact absurd h (by simp [Json.asArr])
  | str s => exact absurd h (by simp [Json.asArr])
  | obj fields => exact absurd h (by simp [Json.asArr])

theorem mapM_option_forall2 {α β : Type} (f : α → Option β) :
    ∀ (l : List α) (l' : List β), l.mapM f = some l' →
      List.Forall₂ (fun a b => f a = some b) l l' := by
  intro l
  induction l with
  | nil =>
    intro l' h
    simp only [List.mapM_nil] at h
    rw [← Option.some.inj h]
    exact List.Forall₂.nil
  | cons a t ih =>
    intro l' h
    rw [List.mapM_cons] at h
    cases hfa : f a with
    | none => rw [hfa] at h; simp at h
    | some b =>
      rw [hfa] at h
      cases hmt : t.mapM f with
      | none => rw [hmt] at h; simp at h
      | some bs =>
        rw [hmt] at h
        simp only [Option.bind_some, Option.pure_def] at h
        have hl : b :: bs = l' := by simpa using h
        rw [← hl]
        exact List.Forall₂.cons hfa (ih bs hmt)

/-- C5 (confirmed): a successful commits decode comes from a JSON array
whose elements are decoded one-for-one, in the array's order — nothing
re-sorted, merged, dropped or otherwise modified (`Forall₂` forces equal
lengths and positional correspondence) — and the renderer emits exactly
one data line per commit, in that same order. -/
theorem C5_api_order_preserved :
    (∀ (r : NetResult) (cs : List Commit),
      decode_commits r = .ok cs →
      ∃ st elems, r = .response st (.arr elems) ∧
        List.Forall₂ (fun e c => parseCommit e = some c) elems cs) ∧
    (∀ (pr : Nat) (title : String) (commits : List Commit),
      '\n' ∉ title.data →
      (∀ c ∈ commits, '\n' ∉ c.sha.data ∧ '\n' ∉ c.commit.author.date.data ∧
        '\n' ∉ c.commit.author.name.data) →
      (breakLines (print_commit_table pr title commits).data).drop 3 =
        commits.map (fun c => (commitRow c).data) ++ [[], []]) := by
  constructor
  · intro r cs h
    cases r with
    | failure => exact absurd h (by simp [decode_commits])
    | response st body =>
      cases hp : parseCommits body with
      | none =>
        simp only [decode_commits, hp] at h
        exact Except.noConfusion h
      | some cs' =>
        simp only [decode_commits, hp] at h
        have hcs : cs' = cs := Except.ok.inj h
        subst hcs
        unfold parseCommits at hp
        cases hb : body.asArr with
        | none => rw [hb] at hp; exact absurd hp (by simp)
        | some elems =>
          rw [hb] at hp
          simp only [Option.some_bind] at hp
          exact ⟨st, elems, congrArg (NetResult.response st) (Json.asArr_eq hb),
            mapM_option_forall2 parseCommit elems cs' hp⟩
  · intro pr title commits ht hc
    rw [breakLines_print pr title commits ht, breakLines_rows commits hc]
    rfl

theorem C5_witness :
    (∃ st elems, NetResult.response 200 (.arr [demoCommitJson]) = .response st (.arr elems) ∧
      List.Forall₂ (fun e c => parseCommit e = some c) elems [demoCommit]) ∧
    (breakLines (print_commit_table 42 "Fix bug" [demoCommit]).data).drop 3 =
      [demoCommit].map (fun c => (commitRow c).data) ++ [[], []] :=
  ⟨C5_api_order_preserved.1 (.response 200 (.arr [demoCommitJson])) [demoCommit] rfl,
   C5_api_order_preserved.2 42 "Fix bug" [demoCommit] (by decide) (by decide)⟩

/-! ## C3: the first fetch failure halts the run -/

/-- C3 (confirmed): when every PR before `pr` in the list fetches
successfully and a fetch for `pr` fails, the run errors, the event trace
contains only the earlier PRs' events plus the fetch attempts for `pr`
itself — so no later PR in the list is ever fetched — and no table is
printed for `pr` (unless `pr` also occurred earlier in the list). -/
theorem C3_first_failure_halts (net : Request → NetResult) (owner repo token : String)
    (pre : List Nat) (pr : Nat) (rest : List Nat)
    (hpre : ∀ q ∈ pre, (∃ t, fetch_pr_title net owner repo q token = .ok t) ∧
            (∃ cs, fetch_commits_for_pr net owner repo q token = .ok cs))
    (hfail : (∃ e, fetch_pr_title net owner repo pr token = .error e) ∨
             (∃ e, fetch_commits_for_pr net owner repo pr token = .error e)) :
    (runMain net owner repo token (pre ++ pr :: rest)).2 = false ∧
    (∀ ev ∈ (runMain net owner repo token (pre ++ pr :: rest)).1,
        ev.prNum ∈ pre ∨ ev = .fetchTitle pr ∨ ev = .fetchCommits pr) ∧
    (∀ out, Event.printTable pr out ∈ (runMain net owner repo token (pre ++ pr :: rest)).1 →
        pr ∈ pre) := by
  induction pre with
  | nil =>
    rw [List.nil_append]
    cases hft : fetch_pr_title net owner repo pr token with
    | error e =>
      simp only [runMain, hft]
      refine ⟨trivial, ?_, ?_⟩
      · intro ev hev
        have : ev = Event.fetchTitle pr := by simpa using hev
        exact Or.inr (Or.inl this)
      · intro out hout
        simp at hout
    | ok title =>
      have hfc : ∃ e, fetch_commits_for_pr net owner repo pr token = .error e := by
        rcases hfail with ⟨e, he⟩ | h2
        · rw [hft] at he; cases he
        · exact h2
      obtain ⟨e, he⟩ := hfc
      simp only [runMain, hft, he]
      refine ⟨trivial, ?_, ?_⟩
      · intro ev hev
        have : ev = Event.fetchTitle pr ∨ ev = Event.fetchCommits pr := by simpa using hev
        exact Or.inr this
      · intro out hout
        simp at hout
  | cons q pre' ih =>
    obtain ⟨⟨t, htq⟩, ⟨cs, hcq⟩⟩ := hpre q (List.mem_cons_self q pre')
    have hpre' : ∀ x ∈ pre', (∃ t, fetch_pr_title net owner repo x token = .ok t) ∧
        (∃ cs, fetch_commits_for_pr net owner repo x token = .ok cs) :=
      fun x hx => hpre x (List.mem_cons_of_mem q hx)
    obtain ⟨ih1, ih2, ih3⟩ := ih hpre'
    rw [List.cons_append]
    simp only [runMain, htq, hcq]
    refine ⟨ih1, ?_, ?_⟩
    · intro ev hev
      simp only [List.mem_cons] at hev
      rcases hev with rfl | rfl | rfl | htail
      · exact Or.inl (by simp [Event.prNum])
      · exact Or.inl (by simp [Event.prNum])
      · exact Or.inl (by simp [Event.prNum])
      · rcases ih2 ev htail with h | h
        · exact Or.inl (List.mem_cons_of_mem q h)
        · exact Or.inr h
    · intro out hout
      simp only [List.mem_cons] at hout
      rcases hout with h | h | h | htail
      · cases h
      · cases h
      · have : pr = q := by
          injection h
        exact this ▸ List.mem_cons_self q pre'
      · exact List.mem_cons_of_mem q (ih3 out htail)

theorem C3_witness :
    (runMain demoNet "o" "r" "tok" ([1] ++ 2 :: [3])).2 = false ∧
    (∀ ev ∈ (runMain demoNet "o" "r" "tok" ([1] ++ 2 :: [3])).1,
        ev.prNum ∈ [1] ∨ ev = .fetchTitle 2 ∨ ev = .fetchCommits 2) ∧
    (∀ out, Event.printTable 2 out ∈ (runMain demoNet "o" "r" "tok" ([1] ++ 2 :: [3])).1 →
        2 ∈ [1]) :=
  C3_first_failure_halts demoNet "o" "r" "tok" [1] 2 [3]
    (by
      intro q hq
      have hq1 : q = 1 := by simpa using hq
      subst hq1
      exact ⟨⟨"T1", rfl⟩, ⟨[], rfl⟩⟩)
    (Or.inl ⟨.network, rfl⟩)

end PrCommits
